import Mathlib

/-!
Shallow embedding of the seckey crate.

`SecKey` (src/src/seckey.rs) is a permission-guarded secret container: a
heap block holding one value, a borrow counter (`count : Cell<usize>`),
and a page protection toggled by `mprotect`.  `Bytes` (src/src/bytes.rs)
is a page-locked transient byte buffer with constant-time equality.

Modelling conventions: machine page permissions are the `Prot` inductive;
values are modelled by their object representation as lists of byte values
wherever byte-level behaviour matters.  The memsec primitives are external
collaborators: `malloc` success is an explicit `allocOk` flag, `mprotect`
writes the `prot` field, `memzero` produces a list of zeros, `mlock` and
`munlock` do not change the bytes, and `memeq` is modelled from the spec
as a non-short-circuiting constant-time comparison.
-/

/-- Memory protection mode, mirroring `memsec::Prot` as used by seckey. -/
inductive Prot
  | NoAccess
  | ReadOnly
  | ReadWrite
deriving DecidableEq, Repr

/-- State of a `SecKey<T>` (src/src/seckey.rs): the contents of the guarded
block (the target of `ptr`), the borrow counter `count`, and the page
protection currently in force on the block (the mode set by the most
recent `mprotect` call on `ptr`). -/
structure SecKey (T : Type) where
  val : T
  count : Nat
  prot : Prot
deriving DecidableEq, Repr

variable {T : Type}

/-- Model of `SecKey::from_raw` (src/src/seckey.rs lines 53-65): `malloc`
(success modelled by the `allocOk` flag), copy the pointed-to value into
the fresh block, `mprotect(NoAccess)`, and return the container with
counter 0; on allocation failure return `None`. -/
def SecKey.from_raw (t : T) (allocOk : Bool) : Option (SecKey T) :=
  if allocOk then
    some { val := t, count := 0, prot := Prot.NoAccess }
  else
    none

/-- Outcome of `SecKey::new` as observed by its caller: the returned
`Result`, the bytes left in the caller's original storage after the call,
and whether the original value's destructor ran during the call. -/
structure NewOutcome where
  result : Except (List Nat) (SecKey (List Nat))
  callerBytes : List Nat
  origDropRun : Bool
deriving Repr

/-- Model of `SecKey::new` (src/src/seckey.rs lines 32-43) at the level of
the value's object representation (a list of bytes): call `from_raw`; on
success, `memzero` the original storage (all bytes become 0) and
`mem::forget` the original (its destructor does not run); on allocation
failure, hand the value back unchanged in `Err`. -/
def SecKey.new (t : List Nat) (allocOk : Bool) : NewOutcome :=
  match SecKey.from_raw t allocOk with
  | some output =>
      { result := Except.ok output,
        callerBytes := List.replicate t.length 0,
        origDropRun := false }
  | none =>
      { result := Except.error t, callerBytes := t, origDropRun := false }

/-- Model of `SecKey::read_unlock` (src/src/seckey.rs lines 69-75): read the
counter, store `count + 1`, and if the old counter was 0 call
`mprotect(ReadOnly)`. -/
def SecKey.read_unlock (k : SecKey T) : SecKey T :=
  if k.count = 0 then { k with count := k.count + 1, prot := Prot.ReadOnly }
  else { k with count := k.count + 1 }

/-- Model of `SecKey::write_unlock` (src/src/seckey.rs lines 77-83): read
the counter, store `count + 1`, and if the old counter was 0 call
`mprotect(ReadWrite)`. -/
def SecKey.write_unlock (k : SecKey T) : SecKey T :=
  if k.count = 0 then { k with count := k.count + 1, prot := Prot.ReadWrite }
  else { k with count := k.count + 1 }

/-- Model of `SecKey::lock` (src/src/seckey.rs lines 85-91): read the
counter, store `count - 1`, and if the old counter was at most 1 call
`mprotect(NoAccess)`. -/
def SecKey.lock (k : SecKey T) : SecKey T :=
  if k.count ≤ 1 then { k with count := k.count - 1, prot := Prot.NoAccess }
  else { k with count := k.count - 1 }

/-- Model of `SecReadGuard` (src/src/seckey.rs): the guard's reference to
its parent key, after the acquiring `read_unlock` has run. -/
structure SecReadGuard (T : Type) where
  key : SecKey T

/-- Model of `SecKey::read` (src/src/seckey.rs lines 102-105): run
`read_unlock`, then hand out a guard. -/
def SecKey.read (k : SecKey T) : SecReadGuard T :=
  SecReadGuard.mk (SecKey.read_unlock k)

/-- Model of `SecReadGuard`'s `Deref` (src/src/seckey.rs lines 150-155):
dereference the parent's `ptr`, exposing the stored value. -/
def SecReadGuard.deref (g : SecReadGuard T) : T :=
  g.key.val

/-- Model of `SecReadGuard`'s `Drop` (src/src/seckey.rs lines 157-161):
call `lock` on the parent key. -/
def SecReadGuard.drop (g : SecReadGuard T) : SecKey T :=
  SecKey.lock g.key

/-- Model of the `fmt::Debug` impl for `SecKey` (src/src/seckey.rs lines
124-128): the fixed text with the current counter interpolated in decimal. -/
def SecKey.debugFmt (k : SecKey T) : String :=
  "** sec key (" ++ Nat.repr k.count ++ ") **"

/-- One call through the borrow API of a container: `read()` (whose state
effect is `read_unlock`), `write()` (state effect `write_unlock`), or the
drop of one guard (state effect `lock`, shared by `SecReadGuard::drop` and
`SecWriteGuard::drop`). -/
inductive Op
  | read
  | write
  | release
deriving DecidableEq, Repr

/-- State effect of one borrow-API call on the container. -/
def SecKey.step (k : SecKey T) : Op → SecKey T
  | Op.read => SecKey.read_unlock k
  | Op.write => SecKey.write_unlock k
  | Op.release => SecKey.lock k

/-- Run a sequence of borrow-API calls on the container, left to right. -/
def SecKey.run (k : SecKey T) (ops : List Op) : SecKey T :=
  ops.foldl SecKey.step k

/-- Well-formedness of an op sequence started at counter `c`: a guard is
only dropped while one is live, i.e. at every `release` the counter is at
least 1 (each guard release belongs to a previously created guard). -/
def wfFrom (c : Nat) : List Op → Bool
  | [] => true
  | Op.release :: rest => decide (1 ≤ c) && wfFrom (c - 1) rest
  | Op.read :: rest => wfFrom (c + 1) rest
  | Op.write :: rest => wfFrom (c + 1) rest

/-- The most recent unlock call (read-unlock or write-unlock) of a
sequence, ignoring releases. -/
def lastUnlock (ops : List Op) : Option Op :=
  ops.foldl
    (fun acc o =>
      match o with
      | Op.release => acc
      | Op.read => some Op.read
      | Op.write => some Op.write)
    none

/-- Holds when after every step of the sequence the borrow counter stays
positive (the borrow run opened before `ops` never closes inside it). -/
def SecKey.allPos (k : SecKey T) : List Op → Bool
  | [] => true
  | o :: rest =>
    let k1 := SecKey.step k o
    decide (0 < k1.count) && SecKey.allPos k1 rest

/-- State of a `Bytes` buffer (src/src/bytes.rs): the owned byte sequence.
Its pages are locked for its whole lifetime; `mlock` and `munlock` do not
change the bytes, so they leave no trace in this model. -/
structure Bytes where
  data : List Nat
deriving DecidableEq, Repr

/-- Model of `Bytes::new` (src/src/bytes.rs lines 19-32): copy the input
bytes into a fresh owned sequence (then `mlock` it). -/
def Bytes.new (input : List Nat) : Bytes :=
  Bytes.mk input

/-- Model of `Bytes::empty` (src/src/bytes.rs): the empty buffer. -/
def Bytes.empty : Bytes :=
  Bytes.mk []

/-- Modelled from the spec: `memsec::memeq`, the external
`constant_time_eq(a, b, len) -> bool` primitive, which "does not
short-circuit on the first mismatching byte".  It accumulates the bytewise
difference over all positions and counts the byte comparisons performed;
the first component is the accumulated difference, the second the number
of byte comparisons. -/
def ctEq : List Nat → List Nat → Nat × Nat
  | x :: xs, y :: ys =>
    let r := ctEq xs ys
    ((x ^^^ y) ||| r.1, r.2 + 1)
  | _, _ => (0, 0)

/-- Result of the constant-time comparison: true when no position differed. -/
def memeq (a b : List Nat) : Bool :=
  (ctEq a b).1 == 0

/-- Model of `impl PartialEq<[u8]> for Bytes` (src/src/bytes.rs lines
85-94): if the lengths are equal, `memeq` over the full length, else
false. -/
def Bytes.eq (b : Bytes) (rhs : List Nat) : Bool :=
  if b.data.length = rhs.length then memeq b.data rhs else false

/-- Number of byte comparisons the `Bytes` equality performs on the given
inputs (0 when the length check already fails). -/
def Bytes.eqCost (b : Bytes) (rhs : List Nat) : Nat :=
  if b.data.length = rhs.length then (ctEq b.data rhs).2 else 0

/-- Model of the `fmt::Debug` impl for `Bytes` (src/src/bytes.rs lines
66-70): one `'*'` placeholder per stored byte. -/
def Bytes.debugFmt (b : Bytes) : String :=
  String.mk (List.replicate b.data.length '*')

/-! Basic unfolding lemmas for the borrow-API state effects. -/

theorem SecKey.read_unlock_count (k : SecKey T) :
    (SecKey.read_unlock k).count = k.count + 1 := by
  unfold SecKey.read_unlock
  split <;> rfl

theorem SecKey.write_unlock_count (k : SecKey T) :
    (SecKey.write_unlock k).count = k.count + 1 := by
  unfold SecKey.write_unlock
  split <;> rfl

theorem SecKey.lock_count (k : SecKey T) :
    (SecKey.lock k).count = k.count - 1 := by
  unfold SecKey.lock
  split <;> rfl

theorem SecKey.read_unlock_prot (k : SecKey T) :
    (SecKey.read_unlock k).prot =
      if k.count = 0 then Prot.ReadOnly else k.prot := by
  unfold SecKey.read_unlock
  by_cases h : k.count = 0 <;> simp [h]

theorem SecKey.write_unlock_prot (k : SecKey T) :
    (SecKey.write_unlock k).prot =
      if k.count = 0 then Prot.ReadWrite else k.prot := by
  unfold SecKey.write_unlock
  by_cases h : k.count = 0 <;> simp [h]

theorem SecKey.lock_prot (k : SecKey T) :
    (SecKey.lock k).prot =
      if k.count ≤ 1 then Prot.NoAccess else k.prot := by
  unfold SecKey.lock
  by_cases h : k.count ≤ 1 <;> simp [h]

theorem SecKey.run_cons (k : SecKey T) (o : Op) (rest : List Op) :
    SecKey.run k (o :: rest) = SecKey.run (SecKey.step k o) rest := rfl

/-- One borrow-API step preserves the core invariant: the block is
inaccessible exactly while no guard is live. -/
theorem SecKey.inv_step (k : SecKey T) (o : Op)
    (hinv : k.prot = Prot.NoAccess ↔ k.count = 0)
    (hrel : o = Op.release → 1 ≤ k.count) :
    ((SecKey.step k o).prot = Prot.NoAccess ↔ (SecKey.step k o).count = 0) := by
  cases o with
  | read =>
    rw [show SecKey.step k Op.read = SecKey.read_unlock k from rfl,
      SecKey.read_unlock_prot, SecKey.read_unlock_count]
    by_cases h : k.count = 0
    · simp [h]
    · simp [h, hinv]
  | write =>
    rw [show SecKey.step k Op.write = SecKey.write_unlock k from rfl,
      SecKey.write_unlock_prot, SecKey.write_unlock_count]
    by_cases h : k.count = 0
    · simp [h]
    · simp [h, hinv]
  | release =>
    have hc : 1 ≤ k.count := hrel rfl
    rw [show SecKey.step k Op.release = SecKey.lock k from rfl,
      SecKey.lock_prot, SecKey.lock_count]
    by_cases h : k.count ≤ 1
    · simp [h]
    · simp [h, hinv]
      omega

/-- The core invariant is preserved by every well-formed op sequence. -/
theorem SecKey.inv_run (ops : List Op) : ∀ (k : SecKey T),
    (k.prot = Prot.NoAccess ↔ k.count = 0) → wfFrom k.count ops = true →
    ((SecKey.run k ops).prot = Prot.NoAccess ↔ (SecKey.run k ops).count = 0) := by
  induction ops with
  | nil =>
    intro k hinv _
    exact hinv
  | cons o rest ih =>
    intro k hinv hwf
    rw [SecKey.run_cons]
    cases o with
    | read =>
      refine ih _ (SecKey.inv_step k Op.read hinv (fun h => Op.noConfusion h)) ?_
      rw [show (SecKey.step k Op.read).count = k.count + 1 from
        SecKey.read_unlock_count k]
      simpa [wfFrom] using hwf
    | write =>
      refine ih _ (SecKey.inv_step k Op.write hinv (fun h => Op.noConfusion h)) ?_
      rw [show (SecKey.step k Op.write).count = k.count + 1 from
        SecKey.write_unlock_count k]
      simpa [wfFrom] using hwf
    | release =>
      have hc : 1 ≤ k.count ∧ wfFrom (k.count - 1) rest = true := by
        simpa [wfFrom] using hwf
      refine ih _ (SecKey.inv_step k Op.release hinv (fun _ => hc.1)) ?_
      rw [show (SecKey.step k Op.release).count = k.count - 1 from
        SecKey.lock_count k]
      exact hc.2

/-- While the borrow counter stays positive along a sequence, no step
touches the protection: `read_unlock` and `write_unlock` only call
`mprotect` when the old counter is 0, and `lock` only when it is at
most 1. -/
theorem SecKey.prot_run_pos (ops : List Op) : ∀ (k : SecKey T),
    0 < k.count → SecKey.allPos k ops = true →
    (SecKey.run k ops).prot = k.prot ∧ 0 < (SecKey.run k ops).count := by
  induction ops with
  | nil =>
    intro k hk _
    exact ⟨rfl, hk⟩
  | cons o rest ih =>
    intro k hk hpos
    have hp : 0 < (SecKey.step k o).count ∧
        SecKey.allPos (SecKey.step k o) rest = true := by
      simpa [SecKey.allPos] using hpos
    have hstep : (SecKey.step k o).prot = k.prot := by
      cases o with
      | read =>
        rw [show SecKey.step k Op.read = SecKey.read_unlock k from rfl,
          SecKey.read_unlock_prot, if_neg (by omega)]
      | write =>
        rw [show SecKey.step k Op.write = SecKey.write_unlock k from rfl,
          SecKey.write_unlock_prot, if_neg (by omega)]
      | release =>
        have h2 : 1 < k.count := by
          have := hp.1
          rw [show (SecKey.step k Op.release).count = k.count - 1 from
            SecKey.lock_count k] at this
          omega
        rw [show SecKey.step k Op.release = SecKey.lock k from rfl,
          SecKey.lock_prot, if_neg (by omega)]
    obtain ⟨h1, h2⟩ := ih (SecKey.step k o) hp.1 hp.2
    rw [SecKey.run_cons]
    exact ⟨h1.trans hstep, h2⟩

/-- C1: for every GuardedSecret container constructed by `from_raw`
(counter 0, permission NoAccess) and every well-formed sequence of
read(), write() and guard-release operations, the memory permission is
NoAccess if and only if the borrow counter is 0. -/
theorem SecKey.noaccess_iff_count_zero (v : T) (k : SecKey T)
    (hk : SecKey.from_raw v true = some k) (ops : List Op)
    (hwf : wfFrom 0 ops = true) :
    ((SecKey.run k ops).prot = Prot.NoAccess ↔
      (SecKey.run k ops).count = 0) := by
  have hk' : k = { val := v, count := 0, prot := Prot.NoAccess } := by
    have h := hk
    simp [SecKey.from_raw] at h
    exact h.symm
  subst hk'
  exact SecKey.inv_run ops _ (by simp) hwf

/-- Witness for C1 at a concrete container and op sequence. -/
theorem SecKey.noaccess_iff_count_zero_witness :
    SecKey.from_raw (0 : Nat) true =
      some { val := 0, count := 0, prot := Prot.NoAccess } ∧
    wfFrom 0 [Op.read, Op.read, Op.release] = true ∧
    ((SecKey.run { val := (0 : Nat), count := 0, prot := Prot.NoAccess }
        [Op.read, Op.read, Op.release]).prot = Prot.NoAccess ↔
      (SecKey.run { val := (0 : Nat), count := 0, prot := Prot.NoAccess }
        [Op.read, Op.read, Op.release]).count = 0) :=
  ⟨by decide, by decide,
    SecKey.noaccess_iff_count_zero 0
      { val := 0, count := 0, prot := Prot.NoAccess } (by decide)
      [Op.read, Op.read, Op.release] (by decide)⟩

/-- C2: on a container satisfying the access invariant whose borrow counter
is at least 1, releasing one guard (`lock`) decrements the counter and the
permission is NoAccess exactly when the counter after the decrement is 0;
in particular, after read(), read(), dropping one guard leaves the
permission ReadOnly and dropping the second sets it to NoAccess. -/
theorem SecKey.release_decrements_and_revokes_at_zero :
    (∀ (T : Type) (k : SecKey T),
      (k.prot = Prot.NoAccess ↔ k.count = 0) → 1 ≤ k.count →
      (SecKey.lock k).count = k.count - 1 ∧
      ((SecKey.lock k).prot = Prot.NoAccess ↔ (SecKey.lock k).count = 0)) ∧
    (∀ (T : Type) (v : T),
      (SecKey.run { val := v, count := 0, prot := Prot.NoAccess }
        [Op.read, Op.read, Op.release]).prot = Prot.ReadOnly ∧
      (SecKey.run { val := v, count := 0, prot := Prot.NoAccess }
        [Op.read, Op.read, Op.release, Op.release]).prot = Prot.NoAccess) := by
  constructor
  · intro T k hinv hc
    exact ⟨SecKey.lock_count k,
      SecKey.inv_step k Op.release hinv (fun _ => hc)⟩
  · intro T v
    exact ⟨rfl, rfl⟩

/-- Witness for C2 at a concrete container with two live guards. -/
theorem SecKey.release_decrements_and_revokes_at_zero_witness :
    (SecKey.lock { val := (0 : Nat), count := 2, prot := Prot.ReadOnly }).count = 2 - 1 ∧
    ((SecKey.lock { val := (0 : Nat), count := 2, prot := Prot.ReadOnly }).prot =
        Prot.NoAccess ↔
      (SecKey.lock { val := (0 : Nat), count := 2, prot := Prot.ReadOnly }).count = 0) :=
  SecKey.release_decrements_and_revokes_at_zero.1 Nat
    { val := 0, count := 2, prot := Prot.ReadOnly } (by decide) (by decide)

/-- C6 counterexample: starting from construction, write() then read() is a
well-formed sequence after which the counter is 2 and the most recent
unlock call is the read-unlock, yet the permission is ReadWrite and not
ReadOnly as the claim requires: the code only sets the permission on the
unlock that raises the counter from 0. -/
theorem SecKey.prot_ignores_most_recent_unlock :
    wfFrom 0 [Op.write, Op.read] = true ∧
    0 < (SecKey.run { val := (0 : Nat), count := 0, prot := Prot.NoAccess }
        [Op.write, Op.read]).count ∧
    lastUnlock [Op.write, Op.read] = some Op.read ∧
    (SecKey.run { val := (0 : Nat), count := 0, prot := Prot.NoAccess }
        [Op.write, Op.read]).prot = Prot.ReadWrite ∧
    (SecKey.run { val := (0 : Nat), count := 0, prot := Prot.NoAccess }
        [Op.write, Op.read]).prot ≠ Prot.ReadOnly := by
  decide

/-- C6 (amended): whenever the borrow counter is positive, the permission
matches the unlock call that opened the current borrow run (the one that
raised the counter from 0): ReadWrite if it was a write-unlock, ReadOnly
if it was a read-unlock; later unlock and release calls leave the
permission unchanged while the counter stays positive. -/
theorem SecKey.prot_matches_opening_unlock (k : SecKey T) (h0 : k.count = 0)
    (o : Op) (ho : o ≠ Op.release) (ops : List Op)
    (hpos : SecKey.allPos (SecKey.step k o) ops = true) :
    0 < (SecKey.run (SecKey.step k o) ops).count ∧
    (SecKey.run (SecKey.step k o) ops).prot =
      (if o = Op.write then Prot.ReadWrite else Prot.ReadOnly) := by
  have hc : 0 < (SecKey.step k o).count := by
    cases o with
    | read =>
      rw [show (SecKey.step k Op.read).count = k.count + 1 from
        SecKey.read_unlock_count k]
      omega
    | write =>
      rw [show (SecKey.step k Op.write).count = k.count + 1 from
        SecKey.write_unlock_count k]
      omega
    | release => exact absurd rfl ho
  have hprot : (SecKey.step k o).prot =
      (if o = Op.write then Prot.ReadWrite else Prot.ReadOnly) := by
    cases o with
    | read =>
      rw [show SecKey.step k Op.read = SecKey.read_unlock k from rfl,
        SecKey.read_unlock_prot, if_pos h0]
      simp
    | write =>
      rw [show SecKey.step k Op.write = SecKey.write_unlock k from rfl,
        SecKey.write_unlock_prot, if_pos h0]
      simp
    | release => exact absurd rfl ho
  obtain ⟨h1, h2⟩ := SecKey.prot_run_pos ops (SecKey.step k o) hc hpos
  exact ⟨h2, h1.trans hprot⟩

/-- Witness for the amended C6: a run opened by write(), followed by a
read() and one release, keeps permission ReadWrite while the counter stays
positive. -/
theorem SecKey.prot_matches_opening_unlock_witness :
    0 < (SecKey.run
        (SecKey.step { val := (0 : Nat), count := 0, prot := Prot.NoAccess }
          Op.write) [Op.read, Op.release]).count ∧
    (SecKey.run
        (SecKey.step { val := (0 : Nat), count := 0, prot := Prot.NoAccess }
          Op.write) [Op.read, Op.release]).prot =
      (if Op.write = Op.write then Prot.ReadWrite else Prot.ReadOnly) :=
  SecKey.prot_matches_opening_unlock
    { val := 0, count := 0, prot := Prot.NoAccess } (by decide)
    Op.write (by decide) [Op.read, Op.release] (by decide)

/-- C3: constructing a container with new(v) succeeding and immediately
calling read() yields a value whose byte representation equals that
of v. -/
theorem SecKey.new_read_roundtrip (v : List Nat) (k : SecKey (List Nat))
    (hk : (SecKey.new v true).result = Except.ok k) :
    (SecKey.read k).deref = v := by
  have hk' : k = { val := v, count := 0, prot := Prot.NoAccess } := by
    simp [SecKey.new, SecKey.from_raw] at hk
    exact hk.symm
  subst hk'
  rfl

/-- Witness for C3 at a concrete secret. -/
theorem SecKey.new_read_roundtrip_witness :
    (SecKey.read
      { val := [1, 2, 3], count := 0, prot := Prot.NoAccess }).deref =
      [1, 2, 3] :=
  SecKey.new_read_roundtrip [1, 2, 3]
    { val := [1, 2, 3], count := 0, prot := Prot.NoAccess } rfl

/-- C4: when secure allocation fails, new(v) returns the failure variant
carrying the original value unchanged (not zeroed) and the original's
destructor does not run, so ownership returns intact to the caller. -/
theorem SecKey.new_alloc_failure_returns_value (v : List Nat) :
    SecKey.new v false =
      { result := Except.error v, callerBytes := v, origDropRun := false } :=
  rfl

/-- C5: when allocation succeeds, new(v) copies v's bytes into the guarded
block, zeroes the original backing storage, does not run the original's
destructor, sets the permission to NoAccess and returns a container with
counter 0. -/
theorem SecKey.new_success_effects (v : List Nat) :
    SecKey.new v true =
      { result := Except.ok { val := v, count := 0, prot := Prot.NoAccess },
        callerBytes := List.replicate v.length 0,
        origDropRun := false } :=
  rfl

/-- A bitwise or of naturals is zero exactly when both sides are zero. -/
theorem nat_or_eq_zero (m n : Nat) : m ||| n = 0 ↔ m = 0 ∧ n = 0 := by
  constructor
  · intro h
    have ht : ∀ i, Nat.testBit m i = false ∧ Nat.testBit n i = false := by
      intro i
      have := congrArg (fun x => Nat.testBit x i) h
      simp only [Nat.testBit_lor, Nat.zero_testBit, Bool.or_eq_false_iff] at this
      exact this
    constructor
    · apply Nat.eq_of_testBit_eq
      intro i
      simp [Nat.zero_testBit, (ht i).1]
    · apply Nat.eq_of_testBit_eq
      intro i
      simp [Nat.zero_testBit, (ht i).2]
  · rintro ⟨rfl, rfl⟩
    rfl

/-- On equal-length inputs the accumulated difference is zero exactly when
the byte lists are equal. -/
theorem ctEq_fst_eq_zero : ∀ (a b : List Nat), a.length = b.length →
    ((ctEq a b).1 = 0 ↔ a = b)
  | [], [], _ => by simp [ctEq]
  | [], _ :: _, h => by simp at h
  | _ :: _, [], h => by simp at h
  | x :: xs, y :: ys, h => by
    have hlen : xs.length = ys.length := by simpa using h
    have ih := ctEq_fst_eq_zero xs ys hlen
    simp [ctEq, nat_or_eq_zero, Nat.xor_eq_zero, ih]

/-- The comparison performs exactly one byte comparison per position when
the lengths are equal. -/
theorem ctEq_snd_eq_length : ∀ (a b : List Nat), a.length = b.length →
    (ctEq a b).2 = a.length
  | [], [], _ => rfl
  | [], _ :: _, h => by simp at h
  | _ :: _, [], h => by simp at h
  | x :: xs, y :: ys, h => by
    have hlen : xs.length = ys.length := by simpa using h
    simp [ctEq, ctEq_snd_eq_length xs ys hlen]

/-- C7: the locked buffer built from a, compared against b, yields true if
and only if a and b are byte-for-byte equal (which forces equal lengths);
in particular whenever the lengths differ the comparison yields false. -/
theorem Bytes.eq_iff_bytes_equal (a b : List Nat) :
    ((Bytes.new a).eq b = true ↔ a = b) ∧
    (a.length ≠ b.length → (Bytes.new a).eq b = false) := by
  constructor
  · unfold Bytes.eq Bytes.new memeq
    by_cases h : a.length = b.length
    · simp [h, ctEq_fst_eq_zero a b h]
    · simp only [h, if_false]
      constructor
      · intro hfalse
        exact absurd hfalse (by simp)
      · intro hab
        exact absurd (congrArg List.length hab) h
  · intro h
    unfold Bytes.eq Bytes.new
    simp [h]

/-- Witness for C7 at inputs of differing length. -/
theorem Bytes.eq_iff_bytes_equal_witness :
    (Bytes.new [1, 2]).eq [1] = false :=
  (Bytes.eq_iff_bytes_equal [1, 2] [1]).2 (by decide)

/-- C8: on equal-length inputs, the number of byte comparisons the locked
buffer's equality performs equals the buffer's length; it is therefore
identical for any two equal-length input pairs, independent of the
position of the first differing byte (no short-circuit). -/
theorem Bytes.eq_cost_constant (a b c d : List Nat)
    (hab : a.length = b.length) (hcd : c.length = d.length)
    (hac : a.length = c.length) :
    (Bytes.new a).eqCost b = a.length ∧
    (Bytes.new a).eqCost b = (Bytes.new c).eqCost d := by
  have h1 : (Bytes.new a).eqCost b = a.length := by
    unfold Bytes.eqCost Bytes.new
    simp [hab, ctEq_snd_eq_length a b hab]
  have h2 : (Bytes.new c).eqCost d = c.length := by
    unfold Bytes.eqCost Bytes.new
    simp [hcd, ctEq_snd_eq_length c d hcd]
  exact ⟨h1, by rw [h1, h2, hac]⟩

/-- Witness for C8: two pairs that first differ at different positions
still cost the same number of byte comparisons. -/
theorem Bytes.eq_cost_constant_witness :
    (Bytes.new [0, 1]).eqCost [9, 1] = 2 ∧
    (Bytes.new [0, 1]).eqCost [9, 1] = (Bytes.new [0, 1]).eqCost [0, 9] :=
  Bytes.eq_cost_constant [0, 1] [9, 1] [0, 1] [0, 9]
    (by decide) (by decide) (by decide)

/-- C9: Debug-formatting the locked buffer built from v yields exactly one
placeholder per byte: a string of v.length characters that are all the
placeholder, and two buffers of equal length format identically, so the
output depends only on the length. -/
theorem Bytes.debug_masks_secret (v : List Nat) :
    (Bytes.new v).debugFmt = String.mk (List.replicate v.length '*') ∧
    (Bytes.new v).debugFmt.length = v.length ∧
    (∀ c, c ∈ (Bytes.new v).debugFmt.data → c = '*') ∧
    (∀ w : List Nat, w.length = v.length →
      (Bytes.new w).debugFmt = (Bytes.new v).debugFmt) := by
  refine ⟨rfl, ?_, ?_, ?_⟩
  · simp [Bytes.debugFmt, Bytes.new, String.length]
  · intro c hc
    simp only [Bytes.debugFmt, Bytes.new] at hc
    exact List.eq_of_mem_replicate hc
  · intro w h
    unfold Bytes.debugFmt Bytes.new
    rw [show (Bytes.mk w).data = w from rfl, show (Bytes.mk v).data = v from rfl, h]

/-- Witness for C9: a character of the rendered output is the placeholder,
and two same-length buffers with different secret bytes render equally. -/
theorem Bytes.debug_masks_secret_witness :
    '*' = '*' ∧ (Bytes.new [9, 9]).debugFmt = (Bytes.new [1, 2]).debugFmt :=
  ⟨(Bytes.debug_masks_secret [1, 2]).2.2.1 '*' (by decide),
    (Bytes.debug_masks_secret [1, 2]).2.2.2 [9, 9] (by decide)⟩

/-- C10: Debug-formatting a container yields exactly the fixed text with
the decimal borrow counter interpolated, and the output is identical for
any two containers with equal counters, whatever their secret values and
types: no part of the secret reaches the output. -/
theorem SecKey.debug_depends_only_on_count :
    (∀ (T : Type) (k : SecKey T),
      SecKey.debugFmt k = "** sec key (" ++ Nat.repr k.count ++ ") **") ∧
    (∀ (T U : Type) (k : SecKey T) (k2 : SecKey U),
      k.count = k2.count → SecKey.debugFmt k = SecKey.debugFmt k2) := by
  constructor
  · intro T k
    rfl
  · intro T U k k2 h
    unfold SecKey.debugFmt
    rw [h]

/-- Witness for C10: two containers holding different secrets of different
types but equal counters render identically. -/
theorem SecKey.debug_depends_only_on_count_witness :
    SecKey.debugFmt { val := (7 : Nat), count := 2, prot := Prot.ReadOnly } =
      SecKey.debugFmt
        { val := [1, 2, 3], count := 2, prot := Prot.NoAccess } :=
  SecKey.debug_depends_only_on_count.2 Nat (List Nat)
    { val := 7, count := 2, prot := Prot.ReadOnly }
    { val := [1, 2, 3], count := 2, prot := Prot.NoAccess } rfl
